import Mathlib

/-!
Verification development for the BarcodeLink barcode-scanning app
(`src/App.tsx`, `src/components/ScannerView.tsx`, `src/services/storageService.ts`,
`src/types.ts`).  The stateful React code is embedded as explicit state passing:
`useState` variables become fields of explicit state records, and each event
handler becomes a pure state-transition function.  JavaScript strings are
modelled as `List Char`; `Date.now()` timestamps as `Nat` (milliseconds);
`crypto.randomUUID()` as a fresh-id counter (the contract needs only uniqueness
of ids within one ledger).
-/

namespace BarcodeLink

/-- `ScanMode` from `src/types.ts`: `'single' | 'series'`. -/
inductive ScanMode where
  | single
  | series
deriving DecidableEq, Repr

/-- `ScannedItem` from `src/types.ts`:
`{ id: string; code: string; timestamp: number; quantity: number; synced: boolean }`. -/
structure ScannedItem where
  id : Nat
  code : List Char
  timestamp : Nat
  quantity : Nat
  synced : Bool
deriving DecidableEq, Repr

/-- The state that `handleScan` in `src/App.tsx` touches: the `items` array plus
the fresh-id counter standing for `crypto.randomUUID()`. -/
structure Ledger where
  items : List ScannedItem
  nextId : Nat
deriving DecidableEq, Repr

/-- The initial `useState<ScannedItem[]>([])` ledger. -/
def emptyLedger : Ledger := { items := [], nextId := 0 }

/-- Series branch of `handleScan` (`src/App.tsx` lines 48-70): `findIndex` on
`code`; if found, `splice` the entry out of its position and `unshift` it back
with `quantity + 1`, the new `timestamp`, and `synced: false`; otherwise
`unshift` a brand-new entry with `quantity: 1` and `synced: false`. -/
def handleScanSeries (code : List Char) (ts : Nat) (L : Ledger) : Ledger :=
  let j := L.items.findIdx fun i => i.code == code
  if h : j < L.items.length then
    let e := L.items[j]
    { items :=
        { e with quantity := e.quantity + 1, timestamp := ts, synced := false }
          :: L.items.eraseIdx j,
      nextId := L.nextId }
  else
    { items :=
        { id := L.nextId, code := code, timestamp := ts, quantity := 1, synced := false }
          :: L.items,
      nextId := L.nextId + 1 }

/-- Single branch of `handleScan` (`src/App.tsx` lines 71-80): always `unshift`
a new entry with a fresh id, `quantity: 1` and `synced: false`. -/
def handleScanSingle (code : List Char) (ts : Nat) (L : Ledger) : Ledger :=
  { items :=
      { id := L.nextId, code := code, timestamp := ts, quantity := 1, synced := false }
        :: L.items,
    nextId := L.nextId + 1 }

/-- `handleScan` from `src/App.tsx` lines 42-83, dispatching on the mode. -/
def handleScan (mode : ScanMode) (code : List Char) (ts : Nat) (L : Ledger) : Ledger :=
  match mode with
  | .series => handleScanSeries code ts L
  | .single => handleScanSingle code ts L

/-- A scan event as delivered to `handleScan`: the code and its `Date.now()`
timestamp in milliseconds. -/
abbrev ScanEvent := List Char × Nat

/-- A whole session: the accepted scan events applied to the ledger in order. -/
def runScans (mode : ScanMode) (evs : List ScanEvent) (L : Ledger) : Ledger :=
  evs.foldl (fun acc e => handleScan mode e.1 e.2 acc) L

/-- Sum of `quantity` over the entries carrying a given code. -/
def sumQty (c : List Char) (l : List ScannedItem) : Nat :=
  (l.map fun i => if i.code = c then i.quantity else 0).sum

/-- Number of entries carrying a given code. -/
def cntCode (c : List Char) (l : List ScannedItem) : Nat :=
  l.countP fun i => i.code == c

example :
    (runScans .series [(['1'], 0), (['4'], 1), (['1'], 2)] emptyLedger).items.map
      (fun i => (i.code, i.quantity)) = [(['1'], 2), (['4'], 1)] := by decide

/-- Decomposition of a list at the index returned by `findIdx`: everything
before the hit fails the predicate, and `eraseIdx` at the hit drops exactly
that element. -/
theorem findIdx_decomp {α : Type _} (p : α → Bool) (l : List α)
    (h : l.findIdx p < l.length) :
    ∃ l1 l2, l = l1 ++ l[l.findIdx p] :: l2 ∧ (∀ x ∈ l1, ¬ p x) ∧
      l.eraseIdx (l.findIdx p) = l1 ++ l2 := by
  induction l with
  | nil => simp at h
  | cons x xs ih =>
    by_cases hx : p x
    · refine ⟨[], xs, ?_, by simp, ?_⟩ <;> simp [List.findIdx_cons, hx]
    · have hfx : (x :: xs).findIdx p = xs.findIdx p + 1 := by
        simp [List.findIdx_cons, hx]
      have h2 : xs.findIdx p < xs.length := by
        rw [hfx] at h; simpa using h
      obtain ⟨l1, l2, hdec, hnp, herase⟩ := ih h2
      refine ⟨x :: l1, l2, ?_, ?_, ?_⟩
      · simp only [hfx, List.getElem_cons_succ, List.cons_append]
        exact congrArg (x :: ·) hdec
      · intro y hy
        rcases List.mem_cons.mp hy with rfl | hy
        · exact fun hc => hx (by simpa using hc)
        · exact hnp y hy
      · simp [hfx, List.eraseIdx_cons_succ, herase]

/-- If some element of `l` satisfies `p` then `findIdx` hits inside `l`. -/
theorem findIdx_lt_of_mem {α : Type _} {p : α → Bool} {l : List α} {x : α}
    (hx : x ∈ l) (hpx : p x) : l.findIdx p < l.length := by
  induction l with
  | nil => cases hx
  | cons y ys ih =>
    by_cases hy : p y
    · simp [List.findIdx_cons, hy]
    · rcases List.mem_cons.mp hx with rfl | hx2
      · exact absurd hpx hy
      · have := ih hx2
        simp only [List.findIdx_cons, hy, cond_false, List.length_cons]
        omega

theorem sumQty_append (c : List Char) (l1 l2 : List ScannedItem) :
    sumQty c (l1 ++ l2) = sumQty c l1 + sumQty c l2 := by
  simp [sumQty]

theorem sumQty_cons (c : List Char) (x : ScannedItem) (l : List ScannedItem) :
    sumQty c (x :: l) = (if x.code = c then x.quantity else 0) + sumQty c l := by
  simp [sumQty]

theorem cntCode_append (c : List Char) (l1 l2 : List ScannedItem) :
    cntCode c (l1 ++ l2) = cntCode c l1 + cntCode c l2 := by
  simp [cntCode, List.countP_append]

theorem cntCode_cons (c : List Char) (x : ScannedItem) (l : List ScannedItem) :
    cntCode c (x :: l) = cntCode c l + (if x.code = c then 1 else 0) := by
  by_cases hx : x.code = c <;> simp [cntCode, List.countP_cons, hx]

/-- When the scanned code is already in the ledger, the series branch bumps the
first matching entry, fronts it, and reuses no fresh id. -/
theorem handleScanSeries_found (code : List Char) (ts : Nat) (L : Ledger)
    (h : (L.items.findIdx fun i => i.code == code) < L.items.length) :
    ∃ l1 e l2, L.items = l1 ++ e :: l2 ∧ (∀ x ∈ l1, x.code ≠ code) ∧ e.code = code ∧
      handleScanSeries code ts L =
        { items :=
            { e with quantity := e.quantity + 1, timestamp := ts, synced := false }
              :: (l1 ++ l2),
          nextId := L.nextId } := by
  obtain ⟨l1, l2, hdec, hnp, herase⟩ := findIdx_decomp (fun i => i.code == code) L.items h
  refine ⟨l1, L.items[L.items.findIdx fun i => i.code == code], l2, hdec, ?_, ?_, ?_⟩
  · intro x hx
    have := hnp x hx
    simpa using this
  · have : (fun i => i.code == code) (L.items[(L.items.findIdx fun i => i.code == code)]) = true :=
      @List.findIdx_getElem _ (fun i => i.code == code) L.items h
    simpa using this
  · simp only [handleScanSeries, dif_pos h]
    rw [herase]

/-- When the scanned code is absent, the series branch behaves exactly like the
single branch: a brand-new entry is unshifted and the id supply advances. -/
theorem handleScanSeries_notFound (code : List Char) (ts : Nat) (L : Ledger)
    (h : ¬ (L.items.findIdx fun i => i.code == code) < L.items.length) :
    (∀ x ∈ L.items, x.code ≠ code) ∧
      handleScanSeries code ts L = handleScanSingle code ts L := by
  constructor
  · intro x hx hcx
    exact h (findIdx_lt_of_mem hx (by simpa using hcx))
  · simp only [handleScanSeries, handleScanSingle, dif_neg h]

/-- One series scan adds exactly one unit of quantity to the scanned code and
leaves every other code's total alone. -/
theorem sumQty_handleScanSeries (c code : List Char) (ts : Nat) (L : Ledger) :
    sumQty c (handleScanSeries code ts L).items
      = sumQty c L.items + (if code = c then 1 else 0) := by
  by_cases h : (L.items.findIdx fun i => i.code == code) < L.items.length
  · obtain ⟨l1, e, l2, hdec, hnp, hec, hres⟩ := handleScanSeries_found code ts L h
    rw [hres]
    conv_rhs => rw [hdec]
    simp only [sumQty_cons, sumQty_append]
    by_cases hc : code = c
    · subst hc
      simp only [hec, if_pos rfl]
      simp
      omega
    · have hec2 : e.code = c ↔ False := by
        rw [hec]; exact iff_false_intro hc
      simp [hc, hec2]
  · obtain ⟨hall, hres⟩ := handleScanSeries_notFound code ts L h
    rw [hres]
    simp only [handleScanSingle, sumQty_cons]
    by_cases hc : code = c
    · subst hc
      simp only [eq_self_iff_true, if_true]
      omega
    · simp [hc]

/-- A series scan of a code already present never changes how many entries carry
any given code. -/
theorem cntCode_handleScanSeries_found (c code : List Char) (ts : Nat) (L : Ledger)
    (h : (L.items.findIdx fun i => i.code == code) < L.items.length) :
    cntCode c (handleScanSeries code ts L).items = cntCode c L.items := by
  obtain ⟨l1, e, l2, hdec, hnp, hec, hres⟩ := handleScanSeries_found code ts L h
  rw [hres]
  conv_rhs => rw [hdec]
  simp only [cntCode_cons, cntCode_append]
  by_cases hc : code = c
  · subst hc
    simp only [hec, if_pos rfl]
    omega
  · have hec2 : e.code = c ↔ False := by
      rw [hec]; exact iff_false_intro hc
    simp only [hec2, if_false]
    omega

theorem cntCode_handleScanSingle (c code : List Char) (ts : Nat) (L : Ledger) :
    cntCode c (handleScanSingle code ts L).items
      = cntCode c L.items + (if code = c then 1 else 0) := by
  simp [handleScanSingle, cntCode_cons]

/-- Invariant of a whole series session: per-code quantity totals track the
accepted event counts, and no code ever has two live entries. -/
theorem runScans_series_inv (evs : List ScanEvent) (L : Ledger)
    (hinv : ∀ c, cntCode c L.items ≤ 1) :
    ∀ c, sumQty c (runScans .series evs L).items
          = sumQty c L.items + evs.countP (fun e => e.1 == c)
        ∧ cntCode c (runScans .series evs L).items ≤ 1 := by
  induction evs generalizing L with
  | nil =>
    intro c
    exact ⟨by simp [runScans], hinv c⟩
  | cons ev evs ih =>
    have hstep : runScans .series (ev :: evs) L
        = runScans .series evs (handleScanSeries ev.1 ev.2 L) := rfl
    have hinv2 : ∀ c, cntCode c (handleScanSeries ev.1 ev.2 L).items ≤ 1 := by
      intro c
      by_cases h : (L.items.findIdx fun i => i.code == ev.1) < L.items.length
      · rw [cntCode_handleScanSeries_found c ev.1 ev.2 L h]
        exact hinv c
      · obtain ⟨hall, hres⟩ := handleScanSeries_notFound ev.1 ev.2 L h
        rw [hres, cntCode_handleScanSingle]
        by_cases hc : ev.1 = c
        · subst hc
          have hz : cntCode ev.1 L.items = 0 := by
            simp only [cntCode, List.countP_eq_zero]
            intro a ha
            simpa using hall a ha
          simp only [eq_self_iff_true, if_true]
          omega
        · simp only [hc, if_false]
          have := hinv c
          omega
    intro c
    obtain ⟨hsum, hcnt⟩ := ih (handleScanSeries ev.1 ev.2 L) hinv2 c
    refine ⟨?_, by rw [hstep]; exact hcnt⟩
    rw [hstep, hsum, sumQty_handleScanSeries, List.countP_cons]
    by_cases hc : ev.1 = c
    · subst hc
      simp only [eq_self_iff_true, if_true, beq_self_eq_true]
      omega
    · have hb : (ev.1 == c) = false := by simpa using hc
      simp only [hc, if_false, hb]
      simp

/-- C1.  In a series session started on an empty ledger, after any sequence of
accepted scan events the quantities summed over the entries carrying a given
code equal the number of accepted events carrying that code, and at most one
entry with that code exists.  (The statement quantifies over every event list,
hence holds after each event of any session.) -/
theorem series_sum_quantity_and_unique_entry (evs : List ScanEvent) (c : List Char) :
    sumQty c (runScans .series evs emptyLedger).items
        = evs.countP (fun e => e.1 == c)
      ∧ cntCode c (runScans .series evs emptyLedger).items ≤ 1 := by
  have h := runScans_series_inv evs emptyLedger
    (fun c => by simp [emptyLedger, cntCode]) c
  simpa [emptyLedger, sumQty] using h

/-- C6.  Series mode, scan "123", "456", "123" on an empty ledger: the result is
exactly the two-entry ledger with "123" in front at quantity 2 and "456" behind
at quantity 1. -/
theorem series_scenario_123_456_123 :
    (runScans .series
        [(['1','2','3'], 0), (['4','5','6'], 1), (['1','2','3'], 2)]
        emptyLedger).items.map (fun i => (i.code, i.quantity))
      = [((['1','2','3'] : List Char), 2), (['4','5','6'], 1)] := by decide

/-- Invariant of a whole single-mode session: ids stay below the fresh-id
counter and pairwise distinct, one entry is appended per event, and every entry
not already present was created with quantity 1 and `synced = false`. -/
theorem runScans_single_inv (evs : List ScanEvent) (L : Ledger)
    (hid : ∀ i ∈ L.items, i.id < L.nextId)
    (hnd : (L.items.map fun i => i.id).Nodup) :
    (∀ i ∈ (runScans .single evs L).items, i.id < (runScans .single evs L).nextId)
    ∧ (runScans .single evs L).items.length = L.items.length + evs.length
    ∧ ((runScans .single evs L).items.map fun i => i.id).Nodup
    ∧ ∀ i ∈ (runScans .single evs L).items,
        i ∈ L.items ∨ (i.quantity = 1 ∧ i.synced = false) := by
  induction evs generalizing L with
  | nil => exact ⟨hid, by simp [runScans], hnd, fun i hi => Or.inl hi⟩
  | cons ev evs ih =>
    have hstep : runScans .single (ev :: evs) L
        = runScans .single evs (handleScanSingle ev.1 ev.2 L) := rfl
    have hid2 : ∀ i ∈ (handleScanSingle ev.1 ev.2 L).items,
        i.id < (handleScanSingle ev.1 ev.2 L).nextId := by
      intro i hi
      have hitems : (handleScanSingle ev.1 ev.2 L).items
          = { id := L.nextId, code := ev.1, timestamp := ev.2,
              quantity := 1, synced := false } :: L.items := rfl
      have hnext : (handleScanSingle ev.1 ev.2 L).nextId = L.nextId + 1 := rfl
      rw [hnext]
      rw [hitems] at hi
      rcases List.mem_cons.mp hi with rfl | hi
      · exact Nat.lt_succ_self L.nextId
      · exact Nat.lt_succ_of_lt (hid i hi)
    have hnd2 : ((handleScanSingle ev.1 ev.2 L).items.map fun i => i.id).Nodup := by
      simp only [handleScanSingle, List.map_cons, List.nodup_cons]
      refine ⟨?_, hnd⟩
      intro hmem
      obtain ⟨i, hi, hieq⟩ := List.mem_map.mp hmem
      have := hid i hi
      omega
    obtain ⟨h1, h2, h3, h4⟩ := ih (handleScanSingle ev.1 ev.2 L) hid2 hnd2
    refine ⟨by rw [hstep]; exact h1, ?_, by rw [hstep]; exact h3, ?_⟩
    · rw [hstep, h2]
      simp only [handleScanSingle, List.length_cons]
      omega
    · intro i hi
      rw [hstep] at hi
      rcases h4 i hi with hmem | hnew
      · simp only [handleScanSingle, List.mem_cons] at hmem
        rcases hmem with rfl | hmem
        · exact Or.inr ⟨rfl, rfl⟩
        · exact Or.inl hmem
      · exact Or.inr hnew

/-- C7.  In a single-mode session started on an empty ledger, the ledger length
equals the number of accepted scan events, every entry was created with
quantity 1 and `synced = false`, and all entry ids are pairwise distinct. -/
theorem single_mode_one_entry_per_event (evs : List ScanEvent) :
    (runScans .single evs emptyLedger).items.length = evs.length
    ∧ (∀ i ∈ (runScans .single evs emptyLedger).items,
        i.quantity = 1 ∧ i.synced = false)
    ∧ ((runScans .single evs emptyLedger).items.map fun i => i.id).Nodup := by
  obtain ⟨h1, h2, h3, h4⟩ := runScans_single_inv evs emptyLedger
    (by simp [emptyLedger]) (by simp [emptyLedger])
  refine ⟨by simpa [emptyLedger] using h2, ?_, h3⟩
  intro i hi
  rcases h4 i hi with hmem | hnew
  · simp [emptyLedger] at hmem
  · exact hnew

/-- C10.  If the ledger already holds two or more entries with code `c`
(possible when a persisted single-mode ledger is resumed in series mode),
a series scan of `c` bumps and fronts only the first matching entry: the rest
of the ledger survives unchanged and in order, the number of entries carrying
`c` is unchanged (duplicates are never merged), and no fresh id is spent. -/
theorem series_scan_touches_only_first_duplicate (c : List Char) (ts : Nat)
    (L : Ledger) (hdup : 2 ≤ cntCode c L.items) :
    ∃ l1 e l2, L.items = l1 ++ e :: l2 ∧ (∀ x ∈ l1, x.code ≠ c) ∧ e.code = c ∧
      (handleScanSeries c ts L).items
        = { e with quantity := e.quantity + 1, timestamp := ts, synced := false }
            :: (l1 ++ l2)
      ∧ cntCode c (handleScanSeries c ts L).items = cntCode c L.items
      ∧ (handleScanSeries c ts L).nextId = L.nextId := by
  have hfound : (L.items.findIdx fun i => i.code == c) < L.items.length := by
    have hpos : 0 < L.items.countP fun i => i.code == c := by
      have : cntCode c L.items = L.items.countP fun i => i.code == c := rfl
      omega
    obtain ⟨x, hx, hpx⟩ := List.countP_pos_iff.mp hpos
    exact findIdx_lt_of_mem hx hpx
  obtain ⟨l1, e, l2, hdec, hnp, hec, hres⟩ := handleScanSeries_found c ts L hfound
  exact ⟨l1, e, l2, hdec, hnp, hec, by rw [hres],
    cntCode_handleScanSeries_found c c ts L hfound, by rw [hres]⟩

/-- Witness for `series_scan_touches_only_first_duplicate` on a concrete ledger
holding two entries with code "7". -/
theorem series_scan_touches_only_first_duplicate_witness :
    2 ≤ cntCode ['7']
        ({ items := [⟨0, ['7'], 0, 1, false⟩, ⟨1, ['7'], 0, 3, true⟩],
           nextId := 2 } : Ledger).items
    ∧ ∃ l1 e l2,
        ({ items := [⟨0, ['7'], 0, 1, false⟩, ⟨1, ['7'], 0, 3, true⟩],
           nextId := 2 } : Ledger).items = l1 ++ e :: l2
        ∧ (∀ x ∈ l1, x.code ≠ ['7']) ∧ e.code = ['7'] ∧
        (handleScanSeries ['7'] 9
          { items := [⟨0, ['7'], 0, 1, false⟩, ⟨1, ['7'], 0, 3, true⟩],
            nextId := 2 }).items
          = { e with quantity := e.quantity + 1, timestamp := 9, synced := false }
              :: (l1 ++ l2)
        ∧ cntCode ['7'] (handleScanSeries ['7'] 9
            { items := [⟨0, ['7'], 0, 1, false⟩, ⟨1, ['7'], 0, 3, true⟩],
              nextId := 2 }).items
          = cntCode ['7']
              ({ items := [⟨0, ['7'], 0, 1, false⟩, ⟨1, ['7'], 0, 3, true⟩],
                 nextId := 2 } : Ledger).items
        ∧ (handleScanSeries ['7'] 9
            { items := [⟨0, ['7'], 0, 1, false⟩, ⟨1, ['7'], 0, 3, true⟩],
              nextId := 2 }).nextId
          = ({ items := [⟨0, ['7'], 0, 1, false⟩, ⟨1, ['7'], 0, 3, true⟩],
               nextId := 2 } : Ledger).nextId :=
  ⟨by decide, series_scan_touches_only_first_duplicate ['7'] 9 _ (by decide)⟩

/-! ### Scanner view: decode events

`src/components/ScannerView.tsx` keeps a `lastScanned` React state.  The
camera loop (`detectLoop`, lines 139-161) guards `handleSuccessScan` with
`code !== lastScanned`; `handleSuccessScan` (lines 163-182) records the code,
emits `onScan(code)`, and schedules an uncancelled
`setTimeout(() => setLastScanned(null), 2000)`.  The manual form
(`handleManualSubmit`, lines 211-217) trims its input, drops it when empty,
and otherwise calls `handleSuccessScan` directly.

`detectLoop` is created inside `startScanning`, which the mount chain
(`useEffect([])` → `startCamera` → `handleStream` → `onloadedmetadata`)
invokes exactly once, so the `lastScanned` binding its comparison reads is
the value captured at that first render — `null` for the whole session: the
re-renders triggered by `setLastScanned` never refresh the running
animation-frame loop's closure.  `cameraDecodeStale` models the camera path
as it therefore actually runs (the comparison passes for every decoded
string); `cameraDecode` models the comparison as written, against the
current state value, and is used only at the fresh-mount state, where the
two agree.  Pending reset timers are modelled as the list of their expiry
times. -/

/-- The whitespace class stripped by `String.prototype.trim` (ECMA-262
WhiteSpace and LineTerminator): tab, LF, VT, FF, CR, space, NBSP, the Ogham
space mark, the Unicode space separators, line and paragraph separators, the
narrow and medium spaces, the ideographic space and the BOM. -/
def isWhite (ch : Char) : Bool :=
  ch.toNat = 0x9 || ch.toNat = 0xA || ch.toNat = 0xB || ch.toNat = 0xC
    || ch.toNat = 0xD || ch.toNat = 0x20 || ch.toNat = 0xA0
    || ch.toNat = 0x1680 || (0x2000 ≤ ch.toNat && ch.toNat ≤ 0x200A)
    || ch.toNat = 0x2028 || ch.toNat = 0x2029 || ch.toNat = 0x202F
    || ch.toNat = 0x205F || ch.toNat = 0x3000 || ch.toNat = 0xFEFF

/-- `String.prototype.trim`: strip whitespace from both ends. -/
def trimChars (s : List Char) : List Char :=
  ((s.dropWhile isWhite).reverse.dropWhile isWhite).reverse

/-- The scanner view state: `lastScanned` plus the expiry times of all pending
`setLastScanned(null)` reset timers (none is ever cancelled). -/
structure DebState where
  lastScanned : Option (List Char)
  timers : List Nat
deriving DecidableEq, Repr

/-- Scanner state when the view mounts: `useState<string | null>(null)`. -/
def debInit : DebState := { lastScanned := none, timers := [] }

/-- By time `t`, every scheduled `setLastScanned(null)` whose 2000ms delay has
elapsed has fired, clearing `lastScanned`. -/
def fireTimers (t : Nat) (s : DebState) : DebState :=
  if s.timers.any (fun e => decide (e ≤ t)) then
    { lastScanned := none, timers := s.timers.filter (fun e => decide (t < e)) }
  else s

/-- One camera decode event with `detectLoop`'s comparison read against the
current `lastScanned` state — the comparison as written in the source.  In
the program the loop's closure pins `lastScanned` at the mount-render value
`null` (see `cameraDecodeStale` and the section comment), so this definition
agrees with the program only at the fresh-mount state `debInit`, where both
have nothing remembered; it is used below solely at that state. -/
def cameraDecode (s : DebState) (code : List Char) (t : Nat) : DebState × Bool :=
  let s2 := fireTimers t s
  if s2.lastScanned = some code then (s2, false)
  else ({ lastScanned := some code, timers := s2.timers ++ [t + 2000] }, true)

/-- One camera decode event as the program runs it: the comparison reads the
captured mount-render `lastScanned` (`null` for the whole session), so
`code !== lastScanned` passes for every decoded string and every decode
reaches `handleSuccessScan`, which records the code (driving the UI overlay),
emits `onScan`, and schedules the uncancelled 2000ms reset timer. -/
def cameraDecodeStale (s : DebState) (code : List Char) (t : Nat) :
    DebState × Bool :=
  let s2 := fireTimers t s
  ({ lastScanned := some code, timers := s2.timers ++ [t + 2000] }, true)

/-- `handleManualSubmit`: trim the text input; when nonempty pass it straight
to `handleSuccessScan` — without the camera path's `code !== lastScanned`
comparison.  Returns the new state and whether `onScan` was invoked. -/
def manualSubmit (s : DebState) (raw : List Char) (t : Nat) : DebState × Bool :=
  let s2 := fireTimers t s
  let code := trimChars raw
  if code = [] then (s2, false)
  else ({ lastScanned := some code, timers := s2.timers ++ [t + 2000] }, true)

/-- Accept decisions of a camera decode sequence as the program runs it. -/
def cameraAcceptsStale : List ScanEvent → DebState → List Bool
  | [], _ => []
  | e :: evs, s =>
    let r := cameraDecodeStale s e.1 e.2
    r.2 :: cameraAcceptsStale evs r.1

/-- Modelled from the spec: the Event Debouncer contract of section 4.1 —
memory `lastAcceptedCode` / `lastAcceptedAt`; `accept(code, now)` returns true
(and updates the memory) iff the code differs from the last accepted code or
at least the 2000ms suppression window has elapsed since the last acceptance.
Stated for comparison against the scanner view's actual state machine. -/
structure SpecDebState where
  lastAcceptedCode : Option (List Char)
  lastAcceptedAt : Nat
deriving DecidableEq, Repr

/-- Modelled from the spec: debouncer memory before any acceptance. -/
def specDebInit : SpecDebState := { lastAcceptedCode := none, lastAcceptedAt := 0 }

/-- Modelled from the spec: one `accept(code, now)` step of the section 4.1
debouncer contract. -/
def specAccept (s : SpecDebState) (code : List Char) (t : Nat) :
    SpecDebState × Bool :=
  if s.lastAcceptedCode ≠ some code ∨ 2000 ≤ t - s.lastAcceptedAt then
    ({ lastAcceptedCode := some code, lastAcceptedAt := t }, true)
  else (s, false)

/-- Modelled from the spec: accept/drop decisions of the section 4.1 debouncer
over a sequence of events. -/
def specAccepts : List ScanEvent → SpecDebState → List Bool
  | [], _ => []
  | e :: evs, s =>
    let r := specAccept s e.1 e.2
    r.2 :: specAccepts evs r.1

/-- C3.  The debounce comparison never fires in the running program:
scanning the same code "1" at t=0 and again at t=100 — well inside the 2000ms
suppression window — the camera path accepts both events, because `detectLoop`
compares each decode against the permanently-null captured `lastScanned`,
while the spec's section 4.1 debouncer accepts exactly one.  The source's own
comments ("prevent re-reading the same code repeatedly (debounce)", the 2000ms
"Debounce reset" timer) document the suppression the stale closure defeats. -/
theorem camera_never_suppresses_failing_input :
    cameraAcceptsStale [(['1'], 0), (['1'], 100)] debInit = [true, true]
    ∧ specAccepts [(['1'], 0), (['1'], 100)] specDebInit = [true, false] := by
  decide

/-- C4 counterexample.  The accept/drop decision is not the same function of
(code, time) for the two input sources: a whitespace-only event at t=0 from
the fresh mount is accepted by the camera path (no trim, comparison against
the stale null) but dropped by the manual path (trimmed to empty); and after
the camera accepts "1" at t=0, a manual re-entry of "1" at t=100 — inside the
2000ms window — is accepted rather than dropped. -/
theorem manual_camera_decision_differs_counterexample :
    (cameraDecodeStale debInit [' '] 0).2 = true
    ∧ (manualSubmit debInit [' '] 0).2 = false
    ∧ (manualSubmit (cameraDecodeStale debInit ['1'] 0).1 ['1'] 100).2 = true := by
  decide

/-- C4 amended.  Manual entry and camera decode do not share one accept path:
the camera loop accepts every decoded code, untrimmed (its comparison reads
the stale mount-render `lastScanned`, permanently null), while a manual
submission is trimmed and accepted iff the trimmed code is nonempty — so a
manual re-entry of the last-accepted code within the window is accepted, as
is every camera re-read. -/
theorem manual_and_camera_accept_rules (s : DebState) (raw : List Char)
    (t : Nat) :
    (cameraDecodeStale s raw t).2 = true
    ∧ ((manualSubmit s raw t).2 = true ↔ trimChars raw ≠ []) := by
  refine ⟨rfl, ?_⟩
  by_cases he : trimChars raw = [] <;> simp [manualSubmit, he]

/-- The full camera event path: `detectLoop`'s comparison, then
`handleSuccessScan`, whose `onScan(code)` call runs `handleScan` in
`src/App.tsx`.  The decoded `rawValue` is forwarded untrimmed and without an
emptiness check. -/
def cameraPipeline (mode : ScanMode) (raw : List Char) (t : Nat)
    (s : DebState) (L : Ledger) : DebState × Ledger :=
  let r := cameraDecode s raw t
  if r.2 then (r.1, handleScan mode raw t L) else (r.1, L)

/-- The full manual entry path: `handleManualSubmit` trims, drops empties, and
otherwise passes the trimmed code to `handleSuccessScan`/`onScan`. -/
def manualPipeline (mode : ScanMode) (raw : List Char) (t : Nat)
    (s : DebState) (L : Ledger) : DebState × Ledger :=
  let r := manualSubmit s raw t
  if r.2 then (r.1, handleScan mode (trimChars raw) t L) else (r.1, L)

/-- C5 counterexample.  A camera decode whose `rawValue` is the empty string
is not dropped: from a fresh scanner state it passes the `code !== lastScanned`
comparison, reaches `onScan`, and creates a ledger entry whose code is the
empty string. -/
theorem empty_camera_code_reaches_ledger_counterexample :
    (cameraDecode debInit [] 0).2 = true
    ∧ ((cameraPipeline .single [] 0 debInit emptyLedger).2.items.map
        fun i => i.code) = [[]] := by decide

/-- C5 amended.  Only manual input is trimmed and dropped when empty: a manual
submission that is whitespace-only leaves both the scanner state (beyond timer
expiry) and the ledger untouched, while the camera path forwards even an empty
decoded string into the ledger. -/
theorem empty_after_trim_dropped_only_for_manual (mode : ScanMode)
    (raw : List Char) (t : Nat) (s : DebState) (L : Ledger)
    (h : trimChars raw = []) :
    manualPipeline mode raw t s L = (fireTimers t s, L)
    ∧ ((cameraPipeline .single [] 0 debInit emptyLedger).2.items.map
        fun i => i.code) = [[]] := by
  refine ⟨?_, by decide⟩
  simp [manualPipeline, manualSubmit, h]

/-- Witness for `empty_after_trim_dropped_only_for_manual` on the whitespace
input " ". -/
theorem empty_after_trim_dropped_only_for_manual_witness :
    manualPipeline .series [' '] 5 debInit emptyLedger = (fireTimers 5 debInit, emptyLedger)
    ∧ ((cameraPipeline .single [] 0 debInit emptyLedger).2.items.map
        fun i => i.code) = [[]] :=
  empty_after_trim_dropped_only_for_manual .series [' '] 5 debInit emptyLedger
    (by decide)

/-! ### Sync coordinator

`handleSync` in `src/App.tsx` (lines 85-102) early-returns when `items` is
empty, early-returns with an offline alert when `navigator.onLine` is false,
and otherwise awaits `syncToRemote(items, settings)`; on a truthy result it
maps `synced: true` over *the current* `items` array (`setItems(prev =>
prev.map(...))`).  Scans can land between the call and its completion, so the
marking step is modelled over the ledger as it stands at completion time,
reached from the snapshot by an arbitrary interim mutation. -/

/-- Which of `handleSync`'s exit paths was taken. -/
inductive SyncOutcome where
  | emptyLedger
  | offline
  | success
  | failure
deriving DecidableEq, Repr

/-- The `setItems(prev => prev.map(item => ({ ...item, synced: true })))`
marking step of `handleSync`. -/
def markAllSynced (items : List ScannedItem) : List ScannedItem :=
  items.map fun i => { i with synced := true }

/-- `handleSync` (`src/App.tsx` lines 85-102).  `isOnline` is the
`navigator.onLine` flag, `remoteOk` the awaited result of `syncToRemote`
(the bundled simulation always resolves `true`; a failing transport is the
`false` case), and `interim` the scans applied to the ledger while the remote
write is in flight.  Returns the exit path taken, the ledger after the call,
and whether a remote write attempt was issued. -/
def handleSync (items : List ScannedItem) (isOnline : Bool) (remoteOk : Bool)
    (interim : List ScannedItem → List ScannedItem) :
    SyncOutcome × List ScannedItem × Bool :=
  if items.length = 0 then (.emptyLedger, items, false)
  else if isOnline = false then (.offline, items, false)
  else if remoteOk then (.success, markAllSynced (interim items), true)
  else (.failure, interim items, true)

/-- Everything of an entry except its `synced` flag. -/
def stripSynced (i : ScannedItem) : Nat × List Char × Nat × Nat :=
  (i.id, i.code, i.timestamp, i.quantity)

/-- C2 counterexample.  Snapshot the one-entry ledger produced by scanning "1"
(id 0), let a single-mode scan of "2" (id 1) land while the remote write is in
flight, and let the write succeed: the marking step sets `synced = true` on
the id-1 entry as well, although that entry was created after the snapshot was
taken and its id is not in the snapshot's id set {0}. -/
theorem sync_marks_post_snapshot_entry_counterexample :
    (handleSync (handleScanSingle ['1'] 0 emptyLedger).items true true
        (fun l => (handleScanSingle ['2'] 5 { items := l, nextId := 1 }).items)).2.1.map
      (fun i => (i.id, i.synced))
      = [(1, true), (0, true)]
    ∧ (handleScanSingle ['1'] 0 emptyLedger).items.map (fun i => i.id) = [0] := by
  decide

/-- C2 amended.  If the remote write succeeds, the marking step sets
`synced = true` on every entry present in the ledger at completion time —
including entries created or mutated after the snapshot was taken — while
changing nothing else about any entry; if the write fails, or the call is
rejected before a write is attempted, the ledger is returned unchanged. -/
theorem sync_marks_every_current_entry (items : List ScannedItem)
    (interim : List ScannedItem → List ScannedItem) (hne : items.length ≠ 0) :
    (handleSync items true true interim).2.1 = markAllSynced (interim items)
    ∧ (∀ i ∈ (handleSync items true true interim).2.1, i.synced = true)
    ∧ ((handleSync items true true interim).2.1.map stripSynced
        = (interim items).map stripSynced)
    ∧ (handleSync items true false interim).2.1 = interim items := by
  have hrun : handleSync items true true interim
      = (.success, markAllSynced (interim items), true) := by
    simp [handleSync, hne]
  have hfail : handleSync items true false interim
      = (.failure, interim items, true) := by
    simp [handleSync, hne]
  refine ⟨by rw [hrun], ?_, ?_, by rw [hfail]⟩
  · intro i hi
    rw [hrun] at hi
    obtain ⟨j, hj, rfl⟩ := List.mem_map.mp hi
    rfl
  · rw [hrun]
    simp [markAllSynced, stripSynced, List.map_map]

/-- Witness for `sync_marks_every_current_entry`: snapshot the ledger holding
the single entry for "1", with a scan of "2" landing mid-flight. -/
theorem sync_marks_every_current_entry_witness :
    (handleSync (handleScanSingle ['1'] 0 emptyLedger).items true true
        (fun l => (handleScanSingle ['2'] 5 { items := l, nextId := 1 }).items)).2.1
      = markAllSynced
          ((fun l => (handleScanSingle ['2'] 5 { items := l, nextId := 1 }).items)
            (handleScanSingle ['1'] 0 emptyLedger).items)
    ∧ (∀ i ∈ (handleSync (handleScanSingle ['1'] 0 emptyLedger).items true true
        (fun l => (handleScanSingle ['2'] 5 { items := l, nextId := 1 }).items)).2.1,
        i.synced = true)
    ∧ ((handleSync (handleScanSingle ['1'] 0 emptyLedger).items true true
        (fun l => (handleScanSingle ['2'] 5 { items := l, nextId := 1 }).items)).2.1.map stripSynced
        = ((fun l => (handleScanSingle ['2'] 5 { items := l, nextId := 1 }).items)
            (handleScanSingle ['1'] 0 emptyLedger).items).map stripSynced)
    ∧ (handleSync (handleScanSingle ['1'] 0 emptyLedger).items true false
        (fun l => (handleScanSingle ['2'] 5 { items := l, nextId := 1 }).items)).2.1
      = (fun l => (handleScanSingle ['2'] 5 { items := l, nextId := 1 }).items)
          (handleScanSingle ['1'] 0 emptyLedger).items :=
  sync_marks_every_current_entry (handleScanSingle ['1'] 0 emptyLedger).items
    (fun l => (handleScanSingle ['2'] 5 { items := l, nextId := 1 }).items)
    (by decide)

/-- C9.  Calling `handleSync` on an empty ledger takes the
`if (items.length === 0) return` path: no remote write attempt is issued and
the ledger — in particular every `synced` flag — is unchanged, whatever the
connectivity and whatever the remote would have answered. -/
theorem sync_empty_ledger_rejected (isOnline remoteOk : Bool)
    (interim : List ScannedItem → List ScannedItem) :
    handleSync [] isOnline remoteOk interim = (.emptyLedger, [], false) := by
  simp [handleSync]

/-! ### Export

`exportToTxt` (`src/services/storageService.ts` lines 60-74) renders
`items.map(item => code \t quantity \t new Date(timestamp).toISOString())
.join('\n')` — no header row.  `Date.prototype.toISOString` is a platform
function, modelled here by `isoOfMs` following ECMA-262: proleptic Gregorian
calendar from the 1970 epoch, `YYYY-MM-DDTHH:mm:ss.sssZ`, with the year
zero-padded to four digits (or sign-prefixed and padded to six for years
beyond 9999; the RangeError raised outside the ±8.64e15 ms range is not
modelled — app timestamps come from `Date.now()`). -/

/-- Gregorian leap-year rule. -/
def isLeap (y : Nat) : Bool :=
  y % 4 == 0 && (y % 100 != 0 || y % 400 == 0)

def daysInYear (y : Nat) : Nat := if isLeap y then 366 else 365

def monthLengths (y : Nat) : List Nat :=
  [31, if isLeap y then 29 else 28, 31, 30, 31, 30, 31, 31, 30, 31, 30, 31]

/-- Walk whole years forward from `y`, consuming `d` days; returns the final
year and the remaining day-of-year.  The fuel argument dominates the day
count, keeping the recursion structural. -/
def yearSplit : Nat → Nat → Nat → Nat × Nat
  | 0, y, d => (y, d)
  | fuel + 1, y, d =>
    if d < daysInYear y then (y, d) else yearSplit fuel (y + 1) (d - daysInYear y)

/-- Split a day-of-year across a month-length table: month index (0-based) and
day-of-month (0-based). -/
def monthSplit : List Nat → Nat → Nat × Nat
  | [], d => (0, d)
  | m :: ms, d =>
    if d < m then (0, d)
    else ((monthSplit ms (d - m)).1 + 1, (monthSplit ms (d - m)).2)

/-- Total days in the `k` years starting at `y0`. -/
def sumYearsFrom (y0 : Nat) : Nat → Nat
  | 0 => 0
  | k + 1 => sumYearsFrom y0 k + daysInYear (y0 + k)

def digitChar (k : Nat) : Char := Char.ofNat (48 + k)

/-- Decimal digits of `n`, most significant first (fueled recursion). -/
def natDigitsAux : Nat → Nat → List Char
  | 0, _ => []
  | fuel + 1, n =>
    if n < 10 then [digitChar n]
    else natDigitsAux fuel (n / 10) ++ [digitChar (n % 10)]

def natDigits (n : Nat) : List Char := natDigitsAux (n + 1) n

/-- Zero-pad the decimal rendering of `n` on the left to width `w`. -/
def padLeft (w n : Nat) : List Char :=
  List.replicate (w - (natDigits n).length) '0' ++ natDigits n

/-- The year field of `toISOString`: four digits up to 9999, expanded
sign-and-six-digits beyond. -/
def yearField (y : Nat) : List Char :=
  if y < 10000 then padLeft 4 y else '+' :: padLeft 6 y

/-- The UTC year of a millisecond epoch timestamp. -/
def isoYear (t : Nat) : Nat :=
  (yearSplit (t / 86400000 + 1) 1970 (t / 86400000)).1

/-- The zero-based day of year of a millisecond epoch timestamp. -/
def isoDoy (t : Nat) : Nat :=
  (yearSplit (t / 86400000 + 1) 1970 (t / 86400000)).2

/-- The zero-based month index of a millisecond epoch timestamp. -/
def isoMonthIdx (t : Nat) : Nat :=
  (monthSplit (monthLengths (isoYear t)) (isoDoy t)).1

/-- The zero-based day of month of a millisecond epoch timestamp. -/
def isoDom (t : Nat) : Nat :=
  (monthSplit (monthLengths (isoYear t)) (isoDoy t)).2

/-- The `YYYY-MM-DD` part of `toISOString`. -/
def datePart (t : Nat) : List Char :=
  yearField (isoYear t)
    ++ '-' :: (padLeft 2 (isoMonthIdx t + 1) ++ '-' :: padLeft 2 (isoDom t + 1))

/-- The `HH:mm:ss.sssZ` part of `toISOString`. -/
def timePart (t : Nat) : List Char :=
  padLeft 2 (t / 3600000 % 24)
    ++ ':' :: (padLeft 2 (t / 60000 % 60)
    ++ ':' :: (padLeft 2 (t / 1000 % 60)
    ++ '.' :: (padLeft 3 (t % 1000) ++ ['Z'])))

/-- `new Date(t).toISOString()` for a millisecond epoch timestamp. -/
def isoOfMs (t : Nat) : List Char := datePart t ++ 'T' :: timePart t

/-- One line of `exportToTxt`:
`${item.code}\t${item.quantity}\t${new Date(item.timestamp).toISOString()}`. -/
def exportLine (i : ScannedItem) : List Char :=
  i.code ++ '\t' :: (natDigits i.quantity ++ '\t' :: isoOfMs i.timestamp)

/-- The full text produced by `exportToTxt`: the lines joined with
`'\n'`, no header row. -/
def exportContent (items : List ScannedItem) : List Char :=
  List.intercalate ['\n'] (items.map exportLine)

/-- Modelled from the spec: "re-parsing the tab-separated output".  Reads a
decimal number back from its digit characters. -/
def digitsToNat (ds : List Char) : Nat :=
  ds.foldl (fun a ch => a * 10 + (ch.toNat - 48)) 0

/-- Modelled from the spec: read the (possibly sign-expanded) year field. -/
def parseYearField (ds : List Char) : Nat :=
  if ds.head? = some '+' then digitsToNat ds.tail else digitsToNat ds

/-- Modelled from the spec: invert the ISO-8601 timestamp rendering back to a
millisecond epoch timestamp (0 on shape mismatch). -/
def msOfIso (s : List Char) : Nat :=
  match s.splitOn 'T' with
  | [date, time] =>
    match date.splitOn '-' with
    | [ys, mos, das] =>
      match time.splitOn ':' with
      | [hs, mins, rest] =>
        match rest.splitOn '.' with
        | [ss, msz] =>
          let y := parseYearField ys
          let dayCount := sumYearsFrom 1970 (y - 1970)
            + ((monthLengths y).take (digitsToNat mos - 1)).sum
            + (digitsToNat das - 1)
          dayCount * 86400000 + digitsToNat hs * 3600000
            + digitsToNat mins * 60000 + digitsToNat ss * 1000
            + digitsToNat msz.dropLast
        | _ => 0
      | _ => 0
    | _ => 0
  | _ => 0

/-- Modelled from the spec: split the export text into lines and each line
into its three tab-separated fields `(code, quantity, timestamp)`. -/
def parseLine (line : List Char) : List Char × Nat × Nat :=
  match line.splitOn '\t' with
  | [c, q, ts] => (c, digitsToNat q, msOfIso ts)
  | _ => ([], 0, 0)

/-- Modelled from the spec: re-parse a whole export (the empty text is the
export of the empty ledger). -/
def parseExport (s : List Char) : List (List Char × Nat × Nat) :=
  if s = [] then [] else (s.splitOn '\n').map parseLine

example : isoOfMs 0 = "1970-01-01T00:00:00.000Z".data := by decide

example : msOfIso (isoOfMs 86400000000) = 86400000000 := by decide

example :
    parseExport (exportContent [⟨0, ['a'], 1234, 2, false⟩])
      = [(['a'], 2, 1234)] := by decide

/-! Digit rendering round-trips through decimal parsing. -/

theorem digitChar_toNat (k : Nat) (h : k < 10) : (digitChar k).toNat = 48 + k := by
  interval_cases k <;> decide

theorem natDigitsAux_digits (fuel : Nat) : ∀ n ch, ch ∈ natDigitsAux fuel n →
    48 ≤ ch.toNat ∧ ch.toNat ≤ 57 := by
  induction fuel with
  | zero =>
    intro n ch h
    simp [natDigitsAux] at h
  | succ fuel ih =>
    intro n ch h
    rw [natDigitsAux] at h
    by_cases hn : n < 10
    · rw [if_pos hn] at h
      simp only [List.mem_singleton] at h
      subst h
      rw [digitChar_toNat n hn]
      omega
    · rw [if_neg hn] at h
      rcases List.mem_append.mp h with h1 | h2
      · exact ih _ _ h1
      · simp only [List.mem_singleton] at h2
        subst h2
        rw [digitChar_toNat _ (Nat.mod_lt _ (by omega))]
        omega

theorem natDigits_digits (n : Nat) : ∀ ch ∈ natDigits n,
    48 ≤ ch.toNat ∧ ch.toNat ≤ 57 :=
  fun ch h => natDigitsAux_digits (n + 1) n ch h

theorem padLeft_digits (w n : Nat) : ∀ ch ∈ padLeft w n,
    48 ≤ ch.toNat ∧ ch.toNat ≤ 57 := by
  intro ch h
  rw [padLeft] at h
  rcases List.mem_append.mp h with h1 | h2
  · rw [List.eq_of_mem_replicate h1]
    decide
  · exact natDigits_digits n ch h2

theorem natDigits_ne_nil (n : Nat) : natDigits n ≠ [] := by
  rw [natDigits, natDigitsAux]
  by_cases hn : n < 10
  · rw [if_pos hn]
    simp
  · rw [if_neg hn]
    simp

theorem natDigitsAux_foldl (fuel : Nat) : ∀ n, n < fuel →
    (natDigitsAux fuel n).foldl (fun a ch => a * 10 + (ch.toNat - 48)) 0 = n := by
  induction fuel with
  | zero =>
    intro n h
    omega
  | succ fuel ih =>
    intro n h
    rw [natDigitsAux]
    by_cases hn : n < 10
    · rw [if_pos hn]
      simp only [List.foldl_cons, List.foldl_nil]
      rw [digitChar_toNat n hn]
      omega
    · rw [if_neg hn]
      rw [List.foldl_append]
      have hlt : n / 10 < fuel := by omega
      rw [ih (n / 10) hlt]
      simp only [List.foldl_cons, List.foldl_nil]
      rw [digitChar_toNat _ (Nat.mod_lt _ (by omega))]
      omega

theorem digitsToNat_natDigits (n : Nat) : digitsToNat (natDigits n) = n :=
  natDigitsAux_foldl (n + 1) n (Nat.lt_succ_self n)

theorem foldl_replicate_zero (k : Nat) (ds : List Char) :
    (List.replicate k '0' ++ ds).foldl (fun a ch => a * 10 + (ch.toNat - 48)) 0
      = ds.foldl (fun a ch => a * 10 + (ch.toNat - 48)) 0 := by
  induction k with
  | zero => simp
  | succ k ih =>
    rw [List.replicate_succ]
    simp only [List.cons_append, List.foldl_cons]
    have hz : 0 * 10 + (('0' : Char).toNat - 48) = 0 := by decide
    rw [hz]
    exact ih

theorem digitsToNat_padLeft (w n : Nat) : digitsToNat (padLeft w n) = n := by
  rw [padLeft, digitsToNat, foldl_replicate_zero]
  exact digitsToNat_natDigits n

/-! Calendar arithmetic of the ISO rendering inverts. -/

theorem daysInYear_pos (y : Nat) : 0 < daysInYear y := by
  rw [daysInYear]
  split <;> omega

theorem sumYearsFrom_shift (k : Nat) : ∀ y0 : Nat,
    sumYearsFrom y0 (k + 1) = daysInYear y0 + sumYearsFrom (y0 + 1) k := by
  induction k with
  | zero =>
    intro y0
    simp [sumYearsFrom]
  | succ k ih =>
    intro y0
    have h1 : sumYearsFrom y0 (k + 1 + 1)
        = sumYearsFrom y0 (k + 1) + daysInYear (y0 + (k + 1)) := rfl
    have h2 : sumYearsFrom (y0 + 1) (k + 1)
        = sumYearsFrom (y0 + 1) k + daysInYear (y0 + 1 + k) := rfl
    have h3 : y0 + (k + 1) = y0 + 1 + k := by omega
    rw [h1, ih y0, h2, h3]
    omega

theorem yearSplit_correct (fuel : Nat) : ∀ y0 d, d < fuel →
    y0 ≤ (yearSplit fuel y0 d).1
    ∧ sumYearsFrom y0 ((yearSplit fuel y0 d).1 - y0) + (yearSplit fuel y0 d).2 = d := by
  induction fuel with
  | zero =>
    intro y0 d h
    omega
  | succ fuel ih =>
    intro y0 d h
    rw [yearSplit]
    by_cases hd : d < daysInYear y0
    · rw [if_pos hd]
      exact ⟨Nat.le_refl y0, by simp [sumYearsFrom]⟩
    · rw [if_neg hd]
      have hpos := daysInYear_pos y0
      have hlt : d - daysInYear y0 < fuel := by omega
      obtain ⟨hy, hsum⟩ := ih (y0 + 1) (d - daysInYear y0) hlt
      refine ⟨by omega, ?_⟩
      have hk : (yearSplit fuel (y0 + 1) (d - daysInYear y0)).1 - y0
          = ((yearSplit fuel (y0 + 1) (d - daysInYear y0)).1 - (y0 + 1)) + 1 := by
        omega
      rw [hk, sumYearsFrom_shift]
      omega

theorem monthSplit_sum (ms : List Nat) : ∀ d : Nat,
    (ms.take (monthSplit ms d).1).sum + (monthSplit ms d).2 = d := by
  induction ms with
  | nil =>
    intro d
    simp [monthSplit]
  | cons m ms ih =>
    intro d
    rw [monthSplit]
    by_cases hd : d < m
    · rw [if_pos hd]
      simp
    · rw [if_neg hd]
      simp only [List.take_succ_cons, List.sum_cons]
      have := ih (d - m)
      omega

/-! Character-class facts: the rendered fields contain no separator
characters, so the tab/newline/ISO splits recover them exactly. -/

theorem not_mem_padLeft {ch : Char} (h : ch.toNat < 48 ∨ 57 < ch.toNat)
    (w n : Nat) : ch ∉ padLeft w n := by
  intro hm
  have := padLeft_digits w n ch hm
  omega

theorem not_mem_natDigits {ch : Char} (h : ch.toNat < 48 ∨ 57 < ch.toNat)
    (n : Nat) : ch ∉ natDigits n := by
  intro hm
  have := natDigits_digits n ch hm
  omega

theorem mem_yearField {ch : Char} {y : Nat} (h : ch ∈ yearField y) :
    ch = '+' ∨ (48 ≤ ch.toNat ∧ ch.toNat ≤ 57) := by
  rw [yearField] at h
  split at h
  · exact Or.inr (padLeft_digits 4 y ch h)
  · rcases List.mem_cons.mp h with rfl | h2
    · exact Or.inl rfl
    · exact Or.inr (padLeft_digits 6 y ch h2)

theorem not_mem_yearField {ch : Char} (h1 : ch.toNat < 48 ∨ 57 < ch.toNat)
    (h2 : ch ≠ '+') (y : Nat) : ch ∉ yearField y := by
  intro hm
  rcases mem_yearField hm with rfl | hd
  · exact h2 rfl
  · omega

theorem not_mem_datePart {ch : Char} (h1 : ch.toNat < 48 ∨ 57 < ch.toNat)
    (h2 : ch ≠ '+') (h3 : ch ≠ '-') (t : Nat) : ch ∉ datePart t := by
  rw [datePart]
  intro hm
  simp only [List.mem_append, List.mem_cons] at hm
  rcases hm with hy | rfl | hp | rfl | hp
  · exact not_mem_yearField h1 h2 (isoYear t) hy
  · exact h3 rfl
  · exact not_mem_padLeft h1 2 (isoMonthIdx t + 1) hp
  · exact h3 rfl
  · exact not_mem_padLeft h1 2 (isoDom t + 1) hp

theorem not_mem_timePart {ch : Char} (h1 : ch.toNat < 48 ∨ 57 < ch.toNat)
    (h2 : ch ≠ ':') (h3 : ch ≠ '.') (h4 : ch ≠ 'Z') (t : Nat) :
    ch ∉ timePart t := by
  rw [timePart]
  intro hm
  simp only [List.mem_append, List.mem_cons] at hm
  rcases hm with hp | rfl | hp | rfl | hp | rfl | hp | hz
  · exact not_mem_padLeft h1 2 (t / 3600000 % 24) hp
  · exact h2 rfl
  · exact not_mem_padLeft h1 2 (t / 60000 % 60) hp
  · exact h2 rfl
  · exact not_mem_padLeft h1 2 (t / 1000 % 60) hp
  · exact h3 rfl
  · exact not_mem_padLeft h1 3 (t % 1000) hp
  · rcases hz with rfl | hnil
    · exact h4 rfl
    · exact List.not_mem_nil ch hnil

theorem not_mem_isoOfMs {ch : Char} (h1 : ch.toNat < 48 ∨ 57 < ch.toNat)
    (h2 : ch ≠ '+') (h3 : ch ≠ '-') (h4 : ch ≠ ':') (h5 : ch ≠ '.')
    (h6 : ch ≠ 'Z') (h7 : ch ≠ 'T') (t : Nat) : ch ∉ isoOfMs t := by
  rw [isoOfMs]
  intro hm
  simp only [List.mem_append, List.mem_cons] at hm
  rcases hm with hd | rfl | ht
  · exact not_mem_datePart h1 h2 h3 t hd
  · exact h7 rfl
  · exact not_mem_timePart h1 h4 h5 h6 t ht

/-! Splitting a separator-joined pair or triple recovers the components. -/

theorem splitOn_pair {sep : Char} {a b : List Char} (ha : sep ∉ a)
    (hb : sep ∉ b) : (a ++ sep :: b).splitOn sep = [a, b] := by
  have hi : [sep].intercalate [a, b] = a ++ sep :: b := by
    simp [List.intercalate]
  rw [← hi]
  refine List.splitOn_intercalate [a, b] sep ?_ (by simp)
  intro l hl
  rcases List.mem_cons.mp hl with rfl | hl2
  · exact ha
  · rcases List.mem_cons.mp hl2 with rfl | hl3
    · exact hb
    · simp at hl3

theorem splitOn_triple {sep : Char} {a b c : List Char} (ha : sep ∉ a)
    (hb : sep ∉ b) (hc : sep ∉ c) :
    (a ++ sep :: (b ++ sep :: c)).splitOn sep = [a, b, c] := by
  have hi : [sep].intercalate [a, b, c] = a ++ sep :: (b ++ sep :: c) := by
    simp [List.intercalate]
  rw [← hi]
  refine List.splitOn_intercalate [a, b, c] sep ?_ (by simp)
  intro l hl
  rcases List.mem_cons.mp hl with rfl | hl2
  · exact ha
  · rcases List.mem_cons.mp hl2 with rfl | hl3
    · exact hb
    · rcases List.mem_cons.mp hl3 with rfl | hl4
      · exact hc
      · simp at hl4

/-- The year field never starts with `'+'` unless it is sign-expanded. -/
theorem padLeft_head_ne_plus (w n : Nat) : (padLeft w n).head? ≠ some '+' := by
  intro hh
  have hmem : '+' ∈ padLeft w n := by
    rcases hp : padLeft w n with _ | ⟨a, l⟩
    · rw [hp] at hh
      simp at hh
    · rw [hp] at hh
      simp only [List.head?_cons, Option.some_inj] at hh
      rw [← hh]
      exact List.mem_cons_self a l
  have hd := padLeft_digits w n '+' hmem
  have hc : ('+' : Char).toNat = 43 := by decide
  omega

theorem parseYearField_yearField (y : Nat) :
    parseYearField (yearField y) = y := by
  rw [yearField]
  by_cases hy : y < 10000
  · rw [if_pos hy, parseYearField, if_neg (padLeft_head_ne_plus 4 y)]
    exact digitsToNat_padLeft 4 y
  · rw [if_neg hy, parseYearField, if_pos (by simp)]
    simp only [List.tail_cons]
    exact digitsToNat_padLeft 6 y

/-- The ISO rendering of any millisecond timestamp parses back exactly. -/
theorem msOfIso_isoOfMs (t : Nat) : msOfIso (isoOfMs t) = t := by
  have hT : (isoOfMs t).splitOn 'T' = [datePart t, timePart t] := by
    rw [isoOfMs]
    exact splitOn_pair
      (not_mem_datePart (by decide) (by decide) (by decide) t)
      (not_mem_timePart (by decide) (by decide) (by decide) (by decide) t)
  have hD : (datePart t).splitOn '-'
      = [yearField (isoYear t), padLeft 2 (isoMonthIdx t + 1),
         padLeft 2 (isoDom t + 1)] := by
    rw [datePart]
    exact splitOn_triple
      (not_mem_yearField (by decide) (by decide) (isoYear t))
      (not_mem_padLeft (by decide) 2 (isoMonthIdx t + 1))
      (not_mem_padLeft (by decide) 2 (isoDom t + 1))
  have hrestC : (':' : Char) ∉ padLeft 2 (t / 1000 % 60)
      ++ '.' :: (padLeft 3 (t % 1000) ++ ['Z']) := by
    intro hm
    simp only [List.mem_append, List.mem_cons] at hm
    rcases hm with hp | h | hp | hz
    · exact not_mem_padLeft (by decide) 2 (t / 1000 % 60) hp
    · exact absurd h (by decide)
    · exact not_mem_padLeft (by decide) 3 (t % 1000) hp
    · rcases hz with h | hnil
      · exact absurd h (by decide)
      · exact List.not_mem_nil _ hnil
  have hTime : (timePart t).splitOn ':'
      = [padLeft 2 (t / 3600000 % 24), padLeft 2 (t / 60000 % 60),
         padLeft 2 (t / 1000 % 60) ++ '.' :: (padLeft 3 (t % 1000) ++ ['Z'])] := by
    rw [timePart]
    exact splitOn_triple
      (not_mem_padLeft (by decide) 2 (t / 3600000 % 24))
      (not_mem_padLeft (by decide) 2 (t / 60000 % 60))
      hrestC
  have hzdot : ('.' : Char) ∉ padLeft 3 (t % 1000) ++ ['Z'] := by
    intro hm
    rcases List.mem_append.mp hm with hp | hz
    · exact not_mem_padLeft (by decide) 3 (t % 1000) hp
    · simp at hz
  have hRest : (padLeft 2 (t / 1000 % 60)
        ++ '.' :: (padLeft 3 (t % 1000) ++ ['Z'])).splitOn '.'
      = [padLeft 2 (t / 1000 % 60), padLeft 3 (t % 1000) ++ ['Z']] :=
    splitOn_pair (not_mem_padLeft (by decide) 2 (t / 1000 % 60)) hzdot
  simp only [msOfIso, hT, hD, hTime, hRest, List.dropLast_concat,
    parseYearField_yearField, digitsToNat_padLeft]
  have hms := monthSplit_sum (monthLengths (isoYear t)) (isoDoy t)
  have hys := yearSplit_correct (t / 86400000 + 1) 1970 (t / 86400000)
    (Nat.lt_succ_self _)
  obtain ⟨hy1970, hysum⟩ := hys
  have hYear : (yearSplit (t / 86400000 + 1) 1970 (t / 86400000)).1 = isoYear t := rfl
  have hDoy : (yearSplit (t / 86400000 + 1) 1970 (t / 86400000)).2 = isoDoy t := rfl
  rw [hYear] at hy1970
  rw [hYear, hDoy] at hysum
  have hMi : (monthSplit (monthLengths (isoYear t)) (isoDoy t)).1 = isoMonthIdx t := rfl
  have hDo : (monthSplit (monthLengths (isoYear t)) (isoDoy t)).2 = isoDom t := rfl
  rw [hMi, hDo] at hms
  have hsimp1 : isoMonthIdx t + 1 - 1 = isoMonthIdx t := by omega
  have hsimp2 : isoDom t + 1 - 1 = isoDom t := by omega
  rw [hsimp1, hsimp2]
  omega

theorem tab_not_mem_isoOfMs (t : Nat) : ('\t' : Char) ∉ isoOfMs t :=
  not_mem_isoOfMs (by decide) (by decide) (by decide) (by decide) (by decide)
    (by decide) (by decide) t

theorem newline_not_mem_isoOfMs (t : Nat) : ('\n' : Char) ∉ isoOfMs t :=
  not_mem_isoOfMs (by decide) (by decide) (by decide) (by decide) (by decide)
    (by decide) (by decide) t

/-- Splitting an export line on tabs recovers its three fields, provided the
code itself contains no tab. -/
theorem exportLine_splitOn (i : ScannedItem) (hcode : '\t' ∉ i.code) :
    (exportLine i).splitOn '\t'
      = [i.code, natDigits i.quantity, isoOfMs i.timestamp] := by
  rw [exportLine]
  exact splitOn_triple hcode (not_mem_natDigits (by decide) i.quantity)
    (tab_not_mem_isoOfMs i.timestamp)

/-- One export line parses back to the entry's code, quantity and timestamp. -/
theorem parseLine_exportLine (i : ScannedItem) (hcode : '\t' ∉ i.code) :
    parseLine (exportLine i) = (i.code, i.quantity, i.timestamp) := by
  simp only [parseLine, exportLine_splitOn i hcode]
  rw [digitsToNat_natDigits, msOfIso_isoOfMs]

theorem newline_not_mem_exportLine (i : ScannedItem) (h : '\n' ∉ i.code) :
    ('\n' : Char) ∉ exportLine i := by
  rw [exportLine]
  intro hm
  simp only [List.mem_append, List.mem_cons] at hm
  rcases hm with hc | h1 | hd | h1 | hiso
  · exact h hc
  · exact absurd h1 (by decide)
  · exact not_mem_natDigits (by decide) i.quantity hd
  · exact absurd h1 (by decide)
  · exact newline_not_mem_isoOfMs i.timestamp hiso

theorem exportLine_ne_nil (i : ScannedItem) : exportLine i ≠ [] := by
  rw [exportLine]
  simp

/-- Splitting the export text on newlines recovers the lines, provided no
code contains a newline. -/
theorem exportContent_splitOn (items : List ScannedItem) (hne : items ≠ [])
    (hnl : ∀ i ∈ items, '\n' ∉ i.code) :
    (exportContent items).splitOn '\n' = items.map exportLine := by
  rw [exportContent]
  refine List.splitOn_intercalate (items.map exportLine) '\n' ?_ (by simpa using hne)
  intro l hl
  obtain ⟨i, hi, rfl⟩ := List.mem_map.mp hl
  exact newline_not_mem_exportLine i (hnl i hi)

/-- C8 counterexample.  A ledger whose single entry's code contains a tab:
the export line then has four tab-separated fields, and re-parsing under the
spec's tab-separated format does not recover the entry. -/
theorem export_roundtrip_counterexample :
    parseExport (exportContent [⟨0, ['a', '\t', 'b'], 0, 1, false⟩])
      = [(([] : List Char), 0, 0)]
    ∧ parseExport (exportContent [⟨0, ['a', '\t', 'b'], 0, 1, false⟩])
      ≠ [⟨0, ['a', '\t', 'b'], 0, 1, false⟩].map
          (fun i : ScannedItem => (i.code, i.quantity, i.timestamp)) := by
  decide

/-- C8 amended.  For every ledger whose codes contain no tab and no newline
character, the export is one tab-separated line per entry in ledger order
with no header, and re-parsing it recovers every entry's code, quantity and
exact timestamp (in particular to the second), order preserved. -/
theorem export_roundtrip (items : List ScannedItem)
    (hcode : ∀ i ∈ items, '\t' ∉ i.code ∧ '\n' ∉ i.code) :
    parseExport (exportContent items)
      = items.map fun i => (i.code, i.quantity, i.timestamp) := by
  cases items with
  | nil => decide
  | cons j rest =>
    have hnl : ∀ i ∈ j :: rest, '\n' ∉ i.code := fun i hi => (hcode i hi).2
    have hsplit := exportContent_splitOn (j :: rest) (by simp) hnl
    have hcne : exportContent (j :: rest) ≠ [] := by
      intro h0
      rw [h0] at hsplit
      have hnil : ([] : List Char).splitOn '\n' = [[]] := rfl
      rw [hnil] at hsplit
      have hhead := congrArg List.head? hsplit
      simp only [List.head?_cons, List.map_cons, Option.some_inj] at hhead
      exact exportLine_ne_nil j hhead.symm
    rw [parseExport, if_neg hcne, hsplit, List.map_map]
    refine List.map_eq_map_iff.mpr ?_
    intro i hi
    exact parseLine_exportLine i (hcode i hi).1

/-- Witness for `export_roundtrip` on a two-entry ledger with tab- and
newline-free codes. -/
theorem export_roundtrip_witness :
    (∀ i ∈ [(⟨0, ['a'], 1234, 2, false⟩ : ScannedItem), ⟨1, ['b'], 0, 1, true⟩],
        '\t' ∉ i.code ∧ '\n' ∉ i.code)
    ∧ parseExport (exportContent
          [(⟨0, ['a'], 1234, 2, false⟩ : ScannedItem), ⟨1, ['b'], 0, 1, true⟩])
        = [(⟨0, ['a'], 1234, 2, false⟩ : ScannedItem), ⟨1, ['b'], 0, 1, true⟩].map
            fun i => (i.code, i.quantity, i.timestamp) :=
  ⟨by decide, export_roundtrip
    [(⟨0, ['a'], 1234, 2, false⟩ : ScannedItem), ⟨1, ['b'], 0, 1, true⟩]
    (by decide)⟩

end BarcodeLink
